import Mathlib

/-!
Verification of the IOC parser extraction pipeline (`ioc-parser.py`, `output.py`).

The development shallowly embeds the program:
* a small executable regular-expression model (`Regex`, `mtch`, `findallMatches`)
  standing for Python's `re` module: compiled patterns, `re.compile` (which can
  fail on malformed syntax), and `re.findall` with its leftmost-first,
  non-overlapping scan and its arity rule (whole match with zero groups, the
  single group's text with one group, a tuple of group texts otherwise);
* the pattern registry loader `load_patterns`, the per-unit extraction loop
  `parse_page` with whitelist filtering and per-document deduplication, the
  plain-text document driver `parse_txt` and the directory driver `parse_dir`,
  all as pure state-passing functions emitting an `OutputEvent` stream;
* the output layer: `getHandler` format selection, the yara rule renderer and
  the AutoFocus query renderer.
-/

/-- Abstract syntax of the regular-expression subset modelled for Python's
`re` module: empty pattern, literal character, `.`, alternation `|`,
concatenation, greedy `*`, and numbered capturing groups `( )`. -/
inductive Regex where
  | eps : Regex
  | char : Char → Regex
  | any : Regex
  | alt : Regex → Regex → Regex
  | cat : Regex → Regex → Regex
  | star : Regex → Regex
  | group : Nat → Regex → Regex
deriving DecidableEq, Repr

/-- Structural size of a regex, used only to furnish enough fuel to `mtch`. -/
def sizeR : Regex → Nat
  | .eps => 1
  | .char _ => 1
  | .any => 1
  | .alt a b => sizeR a + sizeR b + 1
  | .cat a b => sizeR a + sizeR b + 1
  | .star a => sizeR a + 1
  | .group _ a => sizeR a + 1

/-- Number of capturing groups of a regex (Python `re.Pattern.groups`). -/
def numGroups : Regex → Nat
  | .eps => 0
  | .char _ => 0
  | .any => 0
  | .alt a b => numGroups a + numGroups b
  | .cat a b => numGroups a + numGroups b
  | .star a => numGroups a
  | .group _ a => numGroups a + 1

/-- Whether the regex can match the empty string (syntactic nullability). -/
def nullable : Regex → Bool
  | .eps => true
  | .char _ => false
  | .any => false
  | .alt a b => nullable a || nullable b
  | .cat a b => nullable a && nullable b
  | .star _ => true
  | .group _ a => nullable a

/-- Backtracking matcher at a fixed start position.  `mtch f r s` returns the
list of possible outcomes `(remaining suffix, group captures)` in backtracking
priority order: the head is the match Python's engine produces (alternatives
left first, `*` greedy).  As in Python, a `*` iteration must consume at least
one character.  Fuel `f` decreases on every recursive call; it only bounds the
recursion depth, which is linear in `sizeR r * length s`. -/
def mtch : Nat → Regex → List Char → List (List Char × List (Nat × List Char))
  | 0, _, _ => []
  | _ + 1, .eps, s => [(s, [])]
  | _ + 1, .char _, [] => []
  | _ + 1, .char c, x :: xs => if x = c then [(xs, [])] else []
  | _ + 1, .any, [] => []
  | _ + 1, .any, _ :: xs => [(xs, [])]
  | f + 1, .alt r₁ r₂, s => mtch f r₁ s ++ mtch f r₂ s
  | f + 1, .cat r₁ r₂, s =>
      (mtch f r₁ s).flatMap
        (fun p₁ => (mtch f r₂ p₁.1).map (fun p₂ => (p₂.1, p₁.2 ++ p₂.2)))
  | f + 1, .star r₁, s =>
      ((mtch f r₁ s).filter (fun p => decide (p.1.length < s.length))).flatMap
        (fun p₁ => (mtch f (.star r₁) p₁.1).map (fun p₂ => (p₂.1, p₂.2 ++ p₁.2)))
      ++ [(s, [])]
  | f + 1, .group n r₁, s =>
      (mtch f r₁ s).map
        (fun p => (p.1, (n, s.take (s.length - p.1.length)) :: p.2))

/-- Fuel sufficient for `mtch` on regex `r` and input `s`. -/
def mtchFuel (r : Regex) (s : List Char) : Nat := (sizeR r + 2) * (s.length + 2)

/-- One resolved match: the whole matched text and the texts captured by
groups `1 .. numGroups` (empty text for a group that did not participate),
as Python match objects expose them. -/
structure MatchRes where
  whole : List Char
  groups : List (List Char)
deriving DecidableEq, Repr

/-- Text captured by group `n`, defaulting to the empty string. -/
def lookupGrp (g : List (Nat × List Char)) (n : Nat) : List Char :=
  match g.lookup n with
  | some v => v
  | none => []

/-- Package a raw `mtch` outcome at start text `s` into a `MatchRes`. -/
def toMatchRes (r : Regex) (s s₁ : List Char) (g : List (Nat × List Char)) : MatchRes :=
  ⟨s.take (s.length - s₁.length), (List.range (numGroups r)).map (fun i => lookupGrp g (i + 1))⟩

/-- The scan loop of `re.findall`: at each position take the engine's match if
one exists, then resume after it (after an empty match, emit it and advance a
single character, as Python does).  Fuel is the remaining number of scan
steps; `length s + 1` always suffices. -/
def findallAux (r : Regex) : Nat → List Char → List MatchRes
  | 0, _ => []
  | f + 1, s =>
    match mtch (mtchFuel r s) r s with
    | [] =>
      match s with
      | [] => []
      | _ :: s₁ => findallAux r f s₁
    | p :: _ =>
      let m := toMatchRes r s p.1 p.2
      if m.whole.isEmpty then
        match s with
        | [] => [m]
        | _ :: s₁ => m :: findallAux r f s₁
      else m :: findallAux r f p.1

/-- All non-overlapping leftmost-first matches of `r` over `s`. -/
def findallMatches (r : Regex) (s : List Char) : List MatchRes :=
  findallAux r (s.length + 1) s

/-- An element of the list `re.findall` returns: a plain string when the
pattern has at most one group, a tuple of group texts otherwise. -/
inductive FItem where
  | str : String → FItem
  | tup : List String → FItem
deriving DecidableEq, Repr

/-- `re.findall(r, s)`: whole match with zero groups, the group's text with
exactly one group, the tuple of all group texts with two or more. -/
def pyFindall (r : Regex) (s : String) : List FItem :=
  (findallMatches r s.data).map (fun m =>
    if numGroups r = 0 then .str ⟨m.whole⟩
    else if numGroups r = 1 then .str ⟨m.groups.headD []⟩
    else .tup (m.groups.map (fun g => ⟨g⟩)))

/-- Parser modes for the pattern compiler: alternation level, concatenation
level, single atom. -/
inductive PMode where
  | alt : PMode
  | cat : PMode
  | atom : PMode

/-- Recursive-descent parser behind `compile`, modelling the syntax checking
`re.compile` performs on the modelled subset.  Arguments: fuel, mode, input,
number of groups opened so far.  Returns the parsed regex, the unconsumed
input and the updated group counter, or a syntax error. -/
def parseR : Nat → PMode → List Char → Nat → Except String (Regex × List Char × Nat)
  | 0, _, _, _ => .error "pattern too deeply nested"
  | f + 1, .alt, s, g =>
    match parseR f .cat s g with
    | .error e => .error e
    | .ok (r, s₁, g₁) =>
      match s₁ with
      | '|' :: rest =>
        match parseR f .alt rest g₁ with
        | .error e => .error e
        | .ok (r₂, s₂, g₂) => .ok (.alt r r₂, s₂, g₂)
      | _ => .ok (r, s₁, g₁)
  | f + 1, .cat, s, g =>
    match s with
    | [] => .ok (.eps, [], g)
    | ')' :: rest => .ok (.eps, ')' :: rest, g)
    | '|' :: rest => .ok (.eps, '|' :: rest, g)
    | _ =>
      match parseR f .atom s g with
      | .error e => .error e
      | .ok (a, s₁, g₁) =>
        match s₁ with
        | '*' :: rest =>
          match parseR f .cat rest g₁ with
          | .error e => .error e
          | .ok (r₂, s₂, g₂) => .ok (.cat (.star a) r₂, s₂, g₂)
        | _ =>
          match parseR f .cat s₁ g₁ with
          | .error e => .error e
          | .ok (r₂, s₂, g₂) => .ok (.cat a r₂, s₂, g₂)
  | f + 1, .atom, s, g =>
    match s with
    | [] => .error "unexpected end of pattern"
    | '(' :: rest =>
      match parseR f .alt rest (g + 1) with
      | .error e => .error e
      | .ok (r, s₁, g₁) =>
        match s₁ with
        | ')' :: rest₁ => .ok (.group (g + 1) r, rest₁, g₁)
        | _ => .error "missing ), unterminated subpattern"
    | ')' :: _ => .error "unbalanced parenthesis"
    | '|' :: _ => .error "unexpected alternation"
    | '*' :: _ => .error "nothing to repeat"
    | '.' :: rest => .ok (.any, rest, g)
    | c :: rest => .ok (.char c, rest, g)

/-- `re.compile` on the modelled subset: parse the whole pattern string or
fail with a syntax error. -/
def compile (p : String) : Except String Regex :=
  match parseR (3 * p.length + 9) .alt p.data 0 with
  | .error e => .error e
  | .ok (r, [], _) => .ok r
  | .ok (_, _ :: _, _) => .error "unbalanced parenthesis"

/-- One section of the pattern configuration file (`patterns.ini`): a section
name (the indicator category) and its key/value items as `ConfigParser`
exposes them. -/
structure ConfigSection where
  name : String
  items : List (String × String)
deriving DecidableEq, Repr

/-- `config.get(ind_type, 'pattern')` as an `Option`: `none` models the
exception the bare `except` clause of `load_patterns` catches. -/
def sectionPattern (sec : ConfigSection) : Option String :=
  sec.items.lookup "pattern"

/-- Python dict item assignment `d[k] = v`: update the existing key in place,
else append the new binding (insertion order preserved). -/
def dictSet {α : Type} : List (String × α) → String → α → List (String × α)
  | [], k, v => [(k, v)]
  | (k₁, v₁) :: rest, k, v =>
    if k₁ = k then (k, v) :: rest else (k₁, v₁) :: dictSet rest k v

/-- The keys present in a dictionary. -/
def keysOf {α : Type} (d : List (String × α)) : List String := d.map (fun kv => kv.1)

/-- `IOC_Parser.load_patterns` (ioc-parser.py lines 126-139) over the already
parsed configuration, threading the registry dictionary it mutates.  For each
section: fetching the `pattern` key is inside `try/except: continue`, an empty
pattern string is skipped by `if ind_pattern:`, but `re.compile` sits outside
the `try`, so a compile failure propagates and aborts the whole load. -/
def load_patterns : List ConfigSection → List (String × Regex) →
    Except String (List (String × Regex))
  | [], pats => .ok pats
  | sec :: rest, pats =>
    match sectionPattern sec with
    | none => load_patterns rest pats
    | some p =>
      if p = "" then load_patterns rest pats
      else
        match compile p with
        | .error e => .error e
        | .ok r => load_patterns rest (dictSet pats sec.name r)

/-- A section is harmless for the loader: either no usable `pattern` value, or
one whose regular expression compiles. -/
def patOk (sec : ConfigSection) : Bool :=
  match sectionPattern sec with
  | none => true
  | some p => p = "" || (compile p).isOk

/-- The categories of a configuration that carry a usable pattern string. -/
def validCats (cfg : List ConfigSection) : List String :=
  cfg.filterMap (fun sec =>
    match sectionPattern sec with
    | some p => if p = "" then none else some sec.name
    | none => none)

/-- The effect of constructing an `IOC_Parser` on the shared registry: since
`patterns = {}` is a class attribute and `load_patterns` writes through
`self.patterns[ind_type] = ...` without ever rebinding an instance attribute,
every instance reads and mutates the one class-level dictionary.  The shared
dictionary is threaded here as explicit state. -/
def IOC_Parser_init (patterns_ini : List ConfigSection)
    (classPatterns : List (String × Regex)) :
    Except String (List (String × Regex)) :=
  load_patterns patterns_ini classPatterns

/-- Python `str.replace` on character lists, for a non-empty pattern: scan
left to right, replacing non-overlapping occurrences.  (The program only
replaces the non-empty patterns `hxxp` and a backslash.)  Fuel counts the
characters still to scan; each step either keeps one character or consumes
the non-empty pattern, so `length s` suffices. -/
def pyReplaceAux (pat rep : List Char) : Nat → List Char → List Char
  | 0, s => s
  | _ + 1, [] => []
  | f + 1, c :: rest =>
    if pat ≠ [] ∧ pat.isPrefixOf (c :: rest) then
      rep ++ pyReplaceAux pat rep f ((c :: rest).drop pat.length)
    else
      c :: pyReplaceAux pat rep f rest

/-- Python `str.replace` on strings. -/
def pyReplace (s pat rep : String) : String :=
  ⟨pyReplaceAux pat.data rep.data s.data.length s.data⟩

/-- The event stream a document's processing sends to the output handler:
`print_header`, `print_match`, `print_footer`, `print_error` calls. -/
inductive OutputEvent where
  | header : String → OutputEvent
  | mtc : String → Nat → String → String → OutputEvent
  | footer : String → OutputEvent
  | error : String → String → OutputEvent
deriving DecidableEq, Repr

/-- The loaded whitelist store: the compiled rules for a category, an empty
list for a category with no whitelist source.  The `WhiteList` class itself
lives in `whitelist.py`, outside the extraction engine; only the lookup
interface `self.whitelist[ind_type]` is needed here. -/
def WhitelistStore : Type := String → List Regex

/-- `IOC_Parser.is_whitelisted` (lines 141-146): true iff some whitelist rule
for the category has a non-empty `findall` on the candidate. -/
def is_whitelisted (wl : WhitelistStore) (ind_match : String) (ind_type : String) : Bool :=
  (wl ind_type).any (fun w => !(pyFindall w ind_match).isEmpty)

/-- The candidate values the `for ind_match in matches` loop of `parse_page`
(lines 150-154) iterates over: `findall` results, taking `ind_match[0]` when
the result is a tuple. -/
def matchCandidates (r : Regex) (data : String) : List String :=
  (pyFindall r data).map (fun item =>
    match item with
    | .str v => v
    | .tup gs => gs.headD "")

/-- The inner loop body of `parse_page` over one pattern's candidate list
(lines 152-165): whitelist filter, optional dedup against the store, then a
`print_match` event.  Returns the emitted events and the updated dedup store. -/
def parse_matches (wl : WhitelistStore) (dedup : Bool) (fpath : String) (page_num : Nat)
    (ind_type : String) : List String → List (String × String) →
    List OutputEvent × List (String × String)
  | [], st => ([], st)
  | v :: vs, st =>
    if is_whitelisted wl v ind_type then
      parse_matches wl dedup fpath page_num ind_type vs st
    else if dedup then
      if (ind_type, v) ∈ st then
        parse_matches wl dedup fpath page_num ind_type vs st
      else
        let r := parse_matches wl dedup fpath page_num ind_type vs ((ind_type, v) :: st)
        (.mtc fpath page_num ind_type v :: r.1, r.2)
    else
      let r := parse_matches wl dedup fpath page_num ind_type vs st
      (.mtc fpath page_num ind_type v :: r.1, r.2)

/-- `IOC_Parser.parse_page` (lines 148-165): run every registered pattern over
the full unit text, in registry order, threading the dedup store. -/
def parse_page (wl : WhitelistStore) (dedup : Bool) (fpath : String) (data : String)
    (page_num : Nat) : List (String × Regex) → List (String × String) →
    List OutputEvent × List (String × String)
  | [], st => ([], st)
  | (ind_type, ind_regex) :: ps, st =>
    let m := parse_matches wl dedup fpath page_num ind_type
      (matchCandidates ind_regex data) st
    let rest := parse_page wl dedup fpath data page_num ps m.2
    (m.1 ++ rest.1, rest.2)

/-- One document of a directory tree: its path and the result of reading and
decoding its text (`f.read()`), which may raise. -/
structure Document where
  fpath : String
  read : Except String String
deriving Repr

/-- `IOC_Parser.parse_txt` (lines 227-239): reset the dedup store, read the
text, then header / one page / footer; any exception is caught and reported as
an error event carrying the document's path.  The incoming dedup store is the
instance field left over from the previous document. -/
def parse_txt (patterns : List (String × Regex)) (wl : WhitelistStore) (dedup : Bool)
    (doc : Document) (store : List (String × String)) :
    List OutputEvent × List (String × String) :=
  let store := if dedup then [] else store
  match doc.read with
  | .error e => ([.error doc.fpath e], store)
  | .ok data =>
    let r := parse_page wl dedup doc.fpath data 1 patterns store
    (.header doc.fpath :: r.1 ++ [.footer doc.fpath], r.2)

/-- The directory branch of `IOC_Parser.parse` (lines 289-295): the walk over
the tree, already filtered to the files matching the extension filter, feeds
each file to the per-document parser in traversal order. -/
def parse_dir (patterns : List (String × Regex)) (wl : WhitelistStore) (dedup : Bool) :
    List Document → List (String × String) →
    List OutputEvent × List (String × String)
  | [], st => ([], st)
  | d :: ds, st =>
    let r := parse_txt patterns wl dedup d st
    let rest := parse_dir patterns wl dedup ds r.2
    (r.1 ++ rest.1, rest.2)

/-- The `(category, value)` pairs of the match events of a stream, in order. -/
def matchPairs : List OutputEvent → List (String × String)
  | [] => []
  | .mtc _ _ t v :: es => (t, v) :: matchPairs es
  | .header _ :: es => matchPairs es
  | .footer _ :: es => matchPairs es
  | .error _ _ :: es => matchPairs es

/-- The output handler variants of `output.py`. -/
inductive Handler where
  | csv : Handler
  | json : Handler
  | yara : Handler
  | autofocus : Handler
deriving DecidableEq, Repr

/-- `str.lower` restricted to the ASCII range the format names use. -/
def asciiLowerChar (c : Char) : Char :=
  if 'A' ≤ c ∧ c ≤ 'Z' then Char.ofNat (c.toNat + 32) else c

/-- `output_format.lower()`. -/
def asciiLower (s : String) : String := ⟨s.data.map asciiLowerChar⟩

/-- `output.OUTPUT_FORMATS`. -/
def OUTPUT_FORMATS : List String := ["csv", "json", "yara", "autofocus"]

/-- The `getattr(sys.modules[__name__], "OutputHandler_" + fmt)` class lookup:
defined exactly for the four handler class names. -/
def handlerNamed (s : String) : Option Handler :=
  if s = "csv" then some .csv
  else if s = "json" then some .json
  else if s = "yara" then some .yara
  else if s = "autofocus" then some .autofocus
  else none

/-- `output.getHandler` (output.py lines 8-17): lower-case the selector, fall
back to csv with a warning when it is not a known format name, then
instantiate the named handler class.  The boolean records whether the warning
was printed. -/
def getHandler (output_format : String) : Handler × Bool :=
  let lf := asciiLower output_format
  if lf ∈ OUTPUT_FORMATS then ((handlerNamed lf).getD .csv, false)
  else (.csv, true)

/-- One character of the `rule_enc` translation table both rule-emitting
handlers build over `range(256)`: keep a character Python classifies as
upper, lower or digit, replace it by `_` otherwise.  In the Latin-1 range the
Unicode classes add, beyond ASCII, the letters `ª µ º À-Ö Ø-Þ ß-ö ø-ÿ` and the
digits `² ³ ¹`.  `str.translate` leaves code points outside the table
unchanged. -/
def rule_enc_char (c : Char) : Char :=
  let n := c.toNat
  if n ≥ 256 then c
  else if (65 ≤ n ∧ n ≤ 90) ∨ (192 ≤ n ∧ n ≤ 214) ∨ (216 ≤ n ∧ n ≤ 222) then c
  else if (97 ≤ n ∧ n ≤ 122) ∨ n = 170 ∨ n = 181 ∨ n = 186 ∨
      (223 ≤ n ∧ n ≤ 246) ∨ (248 ≤ n ∧ n ≤ 255) then c
  else if (48 ≤ n ∧ n ≤ 57) ∨ n = 178 ∨ n = 179 ∨ n = 185 then c
  else '_'

/-- `os.path.basename`: the part after the last path separator. -/
def pyBasename (p : String) : String :=
  ⟨(p.data.reverse.takeWhile (fun c => c ≠ '/')).reverse⟩

/-- `os.path.splitext(b)[0]` for a separator-free name: drop the extension at
the last dot, provided some earlier character of the name is not a dot
(leading dots do not start an extension). -/
def splitextRoot (b : String) : String :=
  let rev := b.data.reverse
  let after := rev.takeWhile (fun c => c ≠ '.')
  if after.length = rev.length then b
  else
    let before := rev.drop (after.length + 1)
    if before.any (fun c => c ≠ '.') then ⟨before.reverse⟩ else b

/-- `os.path.splitext(os.path.basename(fpath))[0].translate(self.rule_enc)`,
the per-document rule identifier of the yara and autofocus handlers. -/
def deriveRuleName (fpath : String) : String :=
  ⟨(splitextRoot (pyBasename fpath)).data.map rule_enc_char⟩

/-- Per-document state of the yara handler: the per-category counters and the
string identifiers collected since the last header. -/
structure YaraState where
  cnt : List (String × Nat)
  sids : List String
deriving DecidableEq, Repr

/-- `OutputHandler_yara.print_header` (output.py lines 79-87): the opening
lines of the rule block, and the reset `cnt`/`sids` state. -/
def OutputHandler_yara_print_header (fpath : String) : List String × YaraState :=
  (["rule " ++ deriveRuleName fpath, "\x7b", "\tstrings:"], ⟨[], []⟩)

/-- `OutputHandler_yara.print_match` (output.py lines 68-77): bump the
category counter, record the string identifier, print the named string with
backslashes escaped. -/
def OutputHandler_yara_print_match (st : YaraState) (name mtc : String) :
    List String × YaraState :=
  let n := match st.cnt.lookup name with
    | some k => k + 1
    | none => 1
  let string_id := "$" ++ name ++ toString n
  let string_value := pyReplace mtc "\\" "\\\\"
  (["\t\t" ++ string_id ++ " = \"" ++ string_value ++ "\""],
    ⟨dictSet st.cnt name n, st.sids ++ [string_id]⟩)

/-- `OutputHandler_yara.print_footer` (output.py lines 89-94): the condition
disjunction of the collected string identifiers, then the closing brace. -/
def OutputHandler_yara_print_footer (st : YaraState) : List String :=
  ["\tcondition:", "\t\t" ++ String.intercalate " or " st.sids, "\x7d"]

/-- Run the yara handler over a document's event stream, collecting every
printed line.  Errors use the base class `print_error`. -/
def yaraRender (st : YaraState) : List OutputEvent → List String
  | [] => []
  | .header f :: es =>
    let r := OutputHandler_yara_print_header f
    r.1 ++ yaraRender r.2 es
  | .mtc _ _ t v :: es =>
    let r := OutputHandler_yara_print_match st t v
    r.1 ++ yaraRender r.2 es
  | .footer _ :: es => OutputHandler_yara_print_footer st ++ yaraRender st es
  | .error _ m :: es => ("[ERROR] " ++ m) :: yaraRender st es

/-- The category names the autofocus `print_match` if/elif chain covers. -/
def AF_CATEGORIES : List String :=
  ["MD5", "SHA1", "SHA256", "URL", "Host", "Registry", "Filepath", "Filename",
   "Email", "IP", "CVE"]

/-- The value rewriting of `OutputHandler_autofocus.print_match` (output.py
line 101): `hxxp` defanging undone, then backslashes escaped. -/
def af_string_value (v : String) : String :=
  pyReplace (pyReplace v "hxxp" "http") "\\" "\\\\"

/-- The query-clause template the autofocus handler prints. -/
def afClause (field op value : String) : String :=
  "\x7b\"field\":\"" ++ field ++ "\",\"operator\":\"" ++ op ++ "\",\"value\":\"" ++
    value ++ "\"\x7d,"

/-- `OutputHandler_autofocus.print_match` (output.py lines 100-129).  `.ok
(some q)` models printing the clause `q`, `.ok none` the bare `return` of the
commented-out categories, and `.error` the `NameError` the final
`print(auto_focus_query)` raises when no branch assigned the variable. -/
def OutputHandler_autofocus_print_match (name mtc : String) :
    Except String (Option String) :=
  let string_value := af_string_value mtc
  if name = "MD5" then .ok (some (afClause "sample.md5" "is" string_value))
  else if name = "SHA1" then .ok (some (afClause "sample.sha1" "is" string_value))
  else if name = "SHA256" then .ok (some (afClause "sample.sha256" "is" string_value))
  else if name = "URL" then
    .ok (some (afClause "sample.tasks.connection" "contains" string_value))
  else if name = "Host" then
    .ok (some (afClause "sample.tasks.dns" "contains" string_value))
  else if name = "Registry" then .ok none
  else if name = "Filepath" then .ok none
  else if name = "Filename" then .ok none
  else if name = "Email" then .ok none
  else if name = "IP" then
    .ok (some (afClause "sample.tasks.connection" "contains" string_value))
  else if name = "CVE" then .ok none
  else .error "name auto_focus_query is not defined"

/-- The specification's candidate rule, stated independently of `findall`'s
tuple packaging: the first capturing group's text when the rule has capturing
groups, the whole matched substring otherwise. -/
def specCandidate (r : Regex) (m : MatchRes) : String :=
  if numGroups r = 0 then ⟨m.whole⟩ else ⟨m.groups.headD []⟩

/-- The successfully loaded registry of a configuration (meaningful when the
load returns `.ok`). -/
def loadResult (cfg : List ConfigSection) (pats : List (String × Regex)) :
    List (String × Regex) :=
  (load_patterns cfg pats).toOption.getD []

/-- Fixture: a configuration whose two usable patterns are both valid and
whose middle section has no `pattern` key. -/
def cfgAB : List ConfigSection :=
  [⟨"A", [("pattern", "a")]⟩, ⟨"Note", [("comment", "x")]⟩, ⟨"B", [("pattern", "b.")]⟩]

/-- Fixture: a second configuration, loaded by a second parser instance. -/
def cfgCD : List ConfigSection := [⟨"C", [("pattern", "c|d")]⟩]

/-- Fixture: a single-pattern registry. -/
def patsW : List (String × Regex) := [("A", .cat (.char 'a') .eps)]

/-- Fixture: an empty whitelist store. -/
def wlNone : WhitelistStore := fun _ => []

/-- Fixture documents for the directory-tree claims. -/
def docGood1 : Document := ⟨"one.txt", .ok "a"⟩

/-- Fixture: a document whose text extraction raises. -/
def docBad : Document := ⟨"bad.txt", .error "decode error"⟩

/-- Fixture: a readable sibling following the corrupt document. -/
def docGood2 : Document := ⟨"two.txt", .ok "aa"⟩
example : compile "ab" = .ok (.cat (.char 'a') (.cat (.char 'b') .eps)) := by rfl

example : (compile "(").isOk = false := by rfl

example : (compile "a*").isOk = true := by rfl

example : (compile ")x").isOk = false := by rfl

example : pyFindall (.star (.char 'a')) "b" = [.str "", .str ""] := by rfl

example :
    pyFindall (.cat (.char 'a') (.cat .any .eps)) "abacad" =
      [.str "ab", .str "ac", .str "ad"] := by rfl

example :
    pyFindall (.cat (.char 'x') (.cat (.group 1 (.star .any)) (.cat (.char 'y') .eps)))
      "xaby xy" = [.str "aby x"] := by rfl

example :
    pyFindall
      (.cat (.group 1 (.char 'a')) (.cat (.group 2 (.star (.char 'b'))) .eps))
      "ab a" = [.tup ["a", "b"], .tup ["a", ""]] := by rfl

example : pyReplace "hxxp://a hxxps://b" "hxxp" "http" = "http://a https://b" := by rfl

example : pyReplace "a\\b" "\\" "\\\\" = "a\\\\b" := by rfl

example : deriveRuleName "/tmp/apt report-3.txt" = "apt_report_3" := by rfl

/-- C6: output-format selection lower-cases the selector, accepts exactly the
four names `csv`, `json`, `yara`, `autofocus` case-insensitively, and for any
other selector does not fail but warns and returns the csv (Tabular)
handler. -/
theorem getHandler_case_insensitive_with_csv_fallback :
    (∀ s : String,
      (asciiLower s ∈ OUTPUT_FORMATS ∧ (getHandler s).2 = false ∧
        handlerNamed (asciiLower s) = some (getHandler s).1) ∨
      (asciiLower s ∉ OUTPUT_FORMATS ∧ getHandler s = (.csv, true))) ∧
    getHandler "CSV" = (.csv, false) ∧ getHandler "Json" = (.json, false) ∧
    getHandler "yArA" = (.yara, false) ∧ getHandler "AUTOFOCUS" = (.autofocus, false) ∧
    getHandler "xml" = (.csv, true) ∧ getHandler "YARA " = (.csv, true) := by
  refine ⟨fun s => ?_, rfl, rfl, rfl, rfl, rfl, rfl⟩
  by_cases h : asciiLower s ∈ OUTPUT_FORMATS
  · left
    refine ⟨h, ?_, ?_⟩
    · simp [getHandler, h]
    · have h₁ := h
      simp only [OUTPUT_FORMATS, List.mem_cons, List.not_mem_nil, or_false] at h₁
      simp only [getHandler, h, if_pos]
      rcases h₁ with h₁ | h₁ | h₁ | h₁ <;> rw [h₁] <;> rfl
  · right
    exact ⟨h, by simp [getHandler, h]⟩

/-- C8: calling the autofocus renderer's `print_match` with a category name
outside its fixed if/elif chain reaches `print(auto_focus_query)` with the
variable never assigned, raising a `NameError` instead of emitting a clause or
returning silently. -/
theorem autofocus_unknown_category_raises (name mtc : String)
    (h : name ∉ AF_CATEGORIES) :
    OutputHandler_autofocus_print_match name mtc =
      .error "name auto_focus_query is not defined" := by
  simp only [AF_CATEGORIES, List.mem_cons, List.not_mem_nil, or_false, not_or] at h
  obtain ⟨h1, h2, h3, h4, h5, h6, h7, h8, h9, h10, h11⟩ := h
  simp [OutputHandler_autofocus_print_match, h1, h2, h3, h4, h5, h6, h7, h8, h9,
    h10, h11]

theorem autofocus_unknown_category_raises_witness :
    OutputHandler_autofocus_print_match "Domain" "evil.example" =
      .error "name auto_focus_query is not defined" :=
  autofocus_unknown_category_raises "Domain" "evil.example" (by decide)

/-- C7: the autofocus renderer rewrites every `hxxp` in the value to `http`
(then escapes backslashes) before the clause is printed, and the categories
Registry, Filepath, Filename, Email and CVE produce no output clause at
all. -/
theorem autofocus_rewrites_hxxp_and_excludes_categories :
    (∀ v, OutputHandler_autofocus_print_match "Registry" v = .ok none) ∧
    (∀ v, OutputHandler_autofocus_print_match "Filepath" v = .ok none) ∧
    (∀ v, OutputHandler_autofocus_print_match "Filename" v = .ok none) ∧
    (∀ v, OutputHandler_autofocus_print_match "Email" v = .ok none) ∧
    (∀ v, OutputHandler_autofocus_print_match "CVE" v = .ok none) ∧
    (∀ v, OutputHandler_autofocus_print_match "MD5" v =
      .ok (some (afClause "sample.md5" "is" (af_string_value v)))) ∧
    (∀ v, OutputHandler_autofocus_print_match "SHA1" v =
      .ok (some (afClause "sample.sha1" "is" (af_string_value v)))) ∧
    (∀ v, OutputHandler_autofocus_print_match "SHA256" v =
      .ok (some (afClause "sample.sha256" "is" (af_string_value v)))) ∧
    (∀ v, OutputHandler_autofocus_print_match "URL" v =
      .ok (some (afClause "sample.tasks.connection" "contains" (af_string_value v)))) ∧
    (∀ v, OutputHandler_autofocus_print_match "Host" v =
      .ok (some (afClause "sample.tasks.dns" "contains" (af_string_value v)))) ∧
    (∀ v, OutputHandler_autofocus_print_match "IP" v =
      .ok (some (afClause "sample.tasks.connection" "contains" (af_string_value v)))) ∧
    af_string_value "hxxp://evil.example/x" = "http://evil.example/x" ∧
    af_string_value "hxxp://a hxxps://b" = "http://a https://b" := by
  exact ⟨fun v => rfl, fun v => rfl, fun v => rfl, fun v => rfl, fun v => rfl,
    fun v => rfl, fun v => rfl, fun v => rfl, fun v => rfl, fun v => rfl,
    fun v => rfl, rfl, rfl⟩

/-- C10: a document that emits a header and footer with zero surviving
matches still produces the complete yara rule block, whose condition line is
the tab indentation followed by the empty disjunction. -/
theorem yara_zero_match_block (fpath : String) (st₀ : YaraState) :
    yaraRender st₀ [.header fpath, .footer fpath] =
      ["rule " ++ deriveRuleName fpath, "\x7b", "\tstrings:",
        "\tcondition:", "\t\t" ++ String.intercalate " or " [], "\x7d"] ∧
    "\t\t" ++ String.intercalate " or " ([] : List String) = "\t\t" := by
  constructor
  · simp [yaraRender, OutputHandler_yara_print_header, OutputHandler_yara_print_footer]
  · rfl

/-- C1 counterexample: a registry whose configuration compiles when the
malformed section `B` is absent, but whose load fails outright when the
single malformed pattern `(` is present — `re.compile` sits outside the
`try`, so one invalid pattern prevents the whole registry from loading. -/
theorem load_patterns_fails_on_single_malformed_pattern :
    (load_patterns [⟨"A", [("pattern", "a.")]⟩, ⟨"C", [("pattern", "c")]⟩] []).isOk
      = true ∧
    (load_patterns [⟨"A", [("pattern", "a.")]⟩, ⟨"B", [("pattern", "(")]⟩,
        ⟨"C", [("pattern", "c")]⟩] []).isOk = false := ⟨rfl, rfl⟩

theorem dictSet_keys_mono {α : Type} (d : List (String × α)) (k₀ : String) (v : α)
    (k : String) (hk : k ∈ keysOf d) : k ∈ keysOf (dictSet d k₀ v) := by
  induction d with
  | nil => simp [keysOf] at hk
  | cons kv rest ih =>
    obtain ⟨k₁, v₁⟩ := kv
    simp only [keysOf, List.map_cons, List.mem_cons] at hk
    by_cases h : k₁ = k₀
    · subst h
      simp only [dictSet, if_true, eq_self_iff_true, keysOf, List.map_cons,
        List.mem_cons]
      exact hk
    · simp only [dictSet, if_neg h, keysOf, List.map_cons, List.mem_cons]
      rcases hk with hk | hk
      · left; exact hk
      · right; exact ih hk

theorem dictSet_key_mem {α : Type} (d : List (String × α)) (k : String) (v : α) :
    k ∈ keysOf (dictSet d k v) := by
  induction d with
  | nil => simp [dictSet, keysOf]
  | cons kv rest ih =>
    obtain ⟨k₁, v₁⟩ := kv
    by_cases h : k₁ = k
    · subst h
      simp [dictSet, keysOf]
    · simp only [dictSet, if_neg h, keysOf, List.map_cons, List.mem_cons]
      right
      exact ih

theorem load_patterns_keys_mono (cfg : List ConfigSection) :
    ∀ pats pats₁, load_patterns cfg pats = .ok pats₁ →
      ∀ k ∈ keysOf pats, k ∈ keysOf pats₁ := by
  induction cfg with
  | nil =>
    intro pats pats₁ h k hk
    simp only [load_patterns, Except.ok.injEq] at h
    exact h ▸ hk
  | cons sec rest ih =>
    intro pats pats₁ h k hk
    rw [load_patterns] at h
    cases hp : sectionPattern sec with
    | none =>
      simp only [hp] at h
      exact ih pats pats₁ h k hk
    | some p =>
      simp only [hp] at h
      by_cases hpe : p = ""
      · rw [if_pos hpe] at h
        exact ih pats pats₁ h k hk
      · rw [if_neg hpe] at h
        cases hc : compile p with
        | error e => rw [hc] at h; exact absurd h (by simp)
        | ok r =>
          rw [hc] at h
          exact ih _ pats₁ h k (dictSet_keys_mono pats sec.name r k hk)

theorem validCats_cons_none (sec : ConfigSection) (rest : List ConfigSection)
    (hp : sectionPattern sec = none) : validCats (sec :: rest) = validCats rest := by
  simp [validCats, hp]

theorem validCats_cons_empty (sec : ConfigSection) (rest : List ConfigSection)
    (hp : sectionPattern sec = some "") : validCats (sec :: rest) = validCats rest := by
  simp [validCats, hp]

theorem validCats_cons_some (sec : ConfigSection) (rest : List ConfigSection)
    (p : String) (hp : sectionPattern sec = some p) (hpe : p ≠ "") :
    validCats (sec :: rest) = sec.name :: validCats rest := by
  simp [validCats, hp, hpe]

/-- C1 (amended): a category entry without a usable (non-empty) `pattern`
value is skipped silently, and when every present pattern compiles the load
succeeds and the returned registry contains every valid category (plus
everything already in the shared dictionary); but, per the counterexample, a
syntactically malformed pattern is not skipped — it aborts the load. -/
theorem load_patterns_loads_all_valid_categories (cfg : List ConfigSection)
    (pats : List (String × Regex)) (H : ∀ sec ∈ cfg, patOk sec = true) :
    ∃ pats₁, load_patterns cfg pats = .ok pats₁ ∧
      (∀ k ∈ keysOf pats, k ∈ keysOf pats₁) ∧
      (∀ k ∈ validCats cfg, k ∈ keysOf pats₁) := by
  induction cfg generalizing pats with
  | nil =>
    exact ⟨pats, rfl, fun k hk => hk, fun k hk => by simp [validCats] at hk⟩
  | cons sec rest ih =>
    have hsec : patOk sec = true := H sec (by simp)
    have hrest : ∀ s ∈ rest, patOk s = true := fun s hs => H s (by simp [hs])
    rw [load_patterns]
    cases hp : sectionPattern sec with
    | none =>
      simp only [hp]
      obtain ⟨pats₁, h₁, h₂, h₃⟩ := ih pats hrest
      refine ⟨pats₁, h₁, h₂, ?_⟩
      rw [validCats_cons_none sec rest hp]
      exact h₃
    | some p =>
      simp only [hp]
      by_cases hpe : p = ""
      · rw [if_pos hpe]
        obtain ⟨pats₁, h₁, h₂, h₃⟩ := ih pats hrest
        refine ⟨pats₁, h₁, h₂, ?_⟩
        rw [hpe] at hp
        rw [validCats_cons_empty sec rest hp]
        exact h₃
      · rw [if_neg hpe]
        rw [patOk, hp] at hsec
        have hco : (compile p).isOk = true := by
          rcases Bool.or_eq_true_iff.mp hsec with h | h
          · exact absurd (by simpa using h) hpe
          · exact h
        cases hc : compile p with
        | error e =>
          rw [hc] at hco
          simp [Except.isOk, Except.toBool] at hco
        | ok r =>
          obtain ⟨pats₁, h₁, h₂, h₃⟩ := ih (dictSet pats sec.name r) hrest
          refine ⟨pats₁, h₁, ?_, ?_⟩
          · intro k hk
            exact h₂ k (dictSet_keys_mono pats sec.name r k hk)
          · rw [validCats_cons_some sec rest p hp hpe]
            intro k hk
            rcases List.mem_cons.mp hk with hkk | hkk
            · subst hkk
              exact h₂ sec.name (dictSet_key_mem pats sec.name r)
            · exact h₃ k hkk

theorem load_patterns_loads_all_valid_categories_witness :
    (load_patterns cfgAB []).isOk = true := by
  obtain ⟨pats₁, h₁, -, -⟩ := load_patterns_loads_all_valid_categories cfgAB [] (by decide)
  rw [h₁]
  rfl

/-- C9: the registry is class-level shared state — `patterns = {}` is a class
attribute mutated in place through `self.patterns[ind_type] = ...` — so a
second instance's successful load accumulates onto the registry of the first:
every category the first instance loaded is still a key afterwards. -/
theorem patterns_accumulate_across_instances (cfg₁ cfg₂ : List ConfigSection)
    (st₁ st₂ : List (String × Regex))
    (h₁ : IOC_Parser_init cfg₁ [] = .ok st₁)
    (h₂ : IOC_Parser_init cfg₂ st₁ = .ok st₂) :
    keysOf st₁ ⊆ keysOf st₂ := by
  intro k hk
  exact load_patterns_keys_mono cfg₂ st₁ st₂ h₂ k hk

theorem patterns_accumulate_across_instances_witness :
    keysOf (loadResult cfgAB []) ⊆ keysOf (loadResult cfgCD (loadResult cfgAB [])) :=
  patterns_accumulate_across_instances cfgAB cfgCD
    (loadResult cfgAB []) (loadResult cfgCD (loadResult cfgAB [])) rfl rfl

/-- C4: for every registered rule and text unit, the candidate stream the
extraction loop iterates over is exactly the non-overlapping leftmost-first
match list of the rule over the full unit text, each match contributing the
text of the rule's first capturing group when the rule has capturing groups
and the whole matched substring otherwise (the `isinstance(ind_match, tuple)`
unpacking implements precisely this rule). -/
theorem extraction_candidates_first_group_or_whole (r : Regex) (data : String) :
    matchCandidates r data = (findallMatches r data.data).map (specCandidate r) := by
  unfold matchCandidates pyFindall
  rw [List.map_map]
  apply List.map_congr_left
  intro m _
  simp only [Function.comp]
  by_cases h0 : numGroups r = 0
  · simp [h0, specCandidate]
  · by_cases h1 : numGroups r = 1
    · simp [h0, h1, specCandidate]
    · simp only [h0, h1, if_false, specCandidate, if_neg h0]
      cases m.groups with
      | nil => rfl
      | cons g gs => rfl

/-- C2: in a directory tree, the document whose text extraction fails yields
exactly one error event carrying that document's path, and every sibling
before and after it is still processed — the failure never aborts the
traversal. -/
theorem directory_error_isolation (patterns : List (String × Regex))
    (wl : WhitelistStore) (dedup : Bool) (pre post : List Document)
    (st : List (String × String)) (d : Document) (e : String)
    (h : d.read = .error e) :
    (parse_dir patterns wl dedup (pre ++ d :: post) st).1 =
      (parse_dir patterns wl dedup pre st).1 ++
      OutputEvent.error d.fpath e ::
      (parse_dir patterns wl dedup post
        (if dedup then [] else (parse_dir patterns wl dedup pre st).2)).1 := by
  induction pre generalizing st with
  | nil =>
    simp only [List.nil_append, parse_dir, parse_txt, h, List.singleton_append]
  | cons d₀ pre ih =>
    simp only [List.cons_append, parse_dir, List.append_eq]
    rw [ih]
    simp [parse_dir, List.append_assoc]

theorem directory_error_isolation_witness :
    (parse_dir patsW wlNone false ([docGood1] ++ docBad :: [docGood2]) []).1 =
      (parse_dir patsW wlNone false [docGood1] []).1 ++
      OutputEvent.error "bad.txt" "decode error" ::
      (parse_dir patsW wlNone false [docGood2]
        (if false then [] else (parse_dir patsW wlNone false [docGood1] []).2)).1 :=
  directory_error_isolation patsW wlNone false [docGood1] [docGood2] [] docBad
    "decode error" rfl

theorem matchPairs_append (a b : List OutputEvent) :
    matchPairs (a ++ b) = matchPairs a ++ matchPairs b := by
  induction a with
  | nil => rfl
  | cons ev rest ih => cases ev <;> simp [matchPairs, ih]

theorem parse_matches_store_spec (wl : WhitelistStore) (fp : String) (pg : Nat)
    (t : String) :
    ∀ (vs : List String) (st : List (String × String)),
      (parse_matches wl true fp pg t vs st).2 =
        (matchPairs (parse_matches wl true fp pg t vs st).1).reverse ++ st := by
  intro vs
  induction vs with
  | nil => intro st; simp [parse_matches, matchPairs]
  | cons v vs ih =>
    intro st
    by_cases hw : is_whitelisted wl v t = true
    · simpa [parse_matches, hw] using ih st
    · by_cases hm : (t, v) ∈ st
      · simpa [parse_matches, hw, hm] using ih st
      · simp only [parse_matches, hw, hm, if_false, if_true, ite_true, ite_false,
          Bool.false_eq_true, matchPairs]
        rw [ih ((t, v) :: st)]
        simp [List.reverse_cons, List.append_assoc, matchPairs]

theorem parse_matches_nodup_fresh (wl : WhitelistStore) (fp : String) (pg : Nat)
    (t : String) :
    ∀ (vs : List String) (st : List (String × String)),
      (matchPairs (parse_matches wl true fp pg t vs st).1).Nodup ∧
      ∀ p ∈ matchPairs (parse_matches wl true fp pg t vs st).1, p ∉ st := by
  intro vs
  induction vs with
  | nil => intro st; simp [parse_matches, matchPairs]
  | cons v vs ih =>
    intro st
    by_cases hw : is_whitelisted wl v t = true
    · simpa [parse_matches, hw] using ih st
    · by_cases hm : (t, v) ∈ st
      · simpa [parse_matches, hw, hm] using ih st
      · have ihs := ih ((t, v) :: st)
        simp only [parse_matches, hw, hm, if_false, if_true, ite_true, ite_false,
          Bool.false_eq_true, matchPairs]
        constructor
        · rw [List.nodup_cons]
          refine ⟨?_, ihs.1⟩
          intro hmem
          exact (ihs.2 _ hmem) (List.mem_cons_self _ _)
        · intro p hp
          rcases List.mem_cons.mp hp with hp | hp
          · subst hp; exact hm
          · intro hpst
            exact (ihs.2 p hp) (List.mem_cons_of_mem _ hpst)

theorem parse_page_store_spec (wl : WhitelistStore) (fp : String) (data : String)
    (pg : Nat) :
    ∀ (ps : List (String × Regex)) (st : List (String × String)),
      (parse_page wl true fp data pg ps st).2 =
        (matchPairs (parse_page wl true fp data pg ps st).1).reverse ++ st := by
  intro ps
  induction ps with
  | nil => intro st; simp [parse_page, matchPairs]
  | cons pr ps ih =>
    intro st
    obtain ⟨t, r⟩ := pr
    simp only [parse_page, matchPairs_append, List.reverse_append]
    rw [ih, parse_matches_store_spec]
    simp [List.append_assoc]

theorem parse_page_nodup_fresh (wl : WhitelistStore) (fp : String) (data : String)
    (pg : Nat) :
    ∀ (ps : List (String × Regex)) (st : List (String × String)),
      (matchPairs (parse_page wl true fp data pg ps st).1).Nodup ∧
      ∀ p ∈ matchPairs (parse_page wl true fp data pg ps st).1, p ∉ st := by
  intro ps
  induction ps with
  | nil => intro st; simp [parse_page, matchPairs]
  | cons pr ps ih =>
    intro st
    obtain ⟨t, r⟩ := pr
    simp only [parse_page, matchPairs_append]
    have h₁ := parse_matches_nodup_fresh wl fp pg t (matchCandidates r data) st
    have h₂ := ih ((parse_matches wl true fp pg t (matchCandidates r data) st).2)
    have hsub : ∀ p ∈ matchPairs (parse_matches wl true fp pg t
        (matchCandidates r data) st).1,
        p ∈ (parse_matches wl true fp pg t (matchCandidates r data) st).2 := by
      intro p hp
      rw [parse_matches_store_spec]
      exact List.mem_append.mpr (Or.inl (List.mem_reverse.mpr hp))
    constructor
    · refine List.Nodup.append h₁.1 h₂.1 ?_
      intro p hp hp₂
      exact h₂.2 p hp₂ (hsub p hp)
    · intro p hp
      rcases List.mem_append.mp hp with hp | hp
      · exact h₁.2 p hp
      · intro hpst
        apply h₂.2 p hp
        rw [parse_matches_store_spec]
        exact List.mem_append.mpr (Or.inr hpst)

/-- C3: with deduplication enabled no `(category, value)` pair is emitted
twice within one document's match stream, and because `parse_txt` resets the
dedup store before reading the document, a document's events do not depend on
any store left behind by previously processed documents — a pair emitted in
one document is emitted again when it reappears in a different document. -/
theorem dedup_scoped_per_document (patterns : List (String × Regex))
    (wl : WhitelistStore) (doc : Document) (st : List (String × String)) :
    (matchPairs (parse_txt patterns wl true doc st).1).Nodup ∧
    (parse_txt patterns wl true doc st).1 = (parse_txt patterns wl true doc []).1 := by
  constructor
  · unfold parse_txt
    cases hr : doc.read with
    | error e => simp [matchPairs]
    | ok data =>
      simp only [matchPairs, matchPairs_append, if_true, ite_true, List.cons_append]
      simpa [matchPairs_append, matchPairs] using
        (parse_page_nodup_fresh wl doc.fpath data 1 patterns []).1
  · rfl

theorem mtch_length_le :
    ∀ (f : Nat) (r : Regex) (s : List Char) (p : List Char × List (Nat × List Char)),
      p ∈ mtch f r s → p.1.length ≤ s.length := by
  intro f
  induction f with
  | zero => intro r s p h; simp [mtch] at h
  | succ f ih =>
    intro r s p h
    cases r with
    | eps =>
      simp only [mtch, List.mem_singleton] at h
      subst h
      exact le_refl _
    | char c =>
      cases s with
      | nil => simp [mtch] at h
      | cons x xs =>
        by_cases hx : x = c
        · simp only [mtch, if_pos hx, List.mem_singleton] at h
          subst h
          simp
        · simp [mtch, hx] at h
    | any =>
      cases s with
      | nil => simp [mtch] at h
      | cons x xs =>
        simp only [mtch, List.mem_singleton] at h
        subst h
        simp
    | alt r₁ r₂ =>
      simp only [mtch, List.mem_append] at h
      rcases h with h | h
      · exact ih r₁ s p h
      · exact ih r₂ s p h
    | cat r₁ r₂ =>
      simp only [mtch, List.mem_flatMap, List.mem_map] at h
      obtain ⟨p₁, hp₁, p₂, hp₂, hg⟩ := h
      subst hg
      have h₁ := ih r₁ s p₁ hp₁
      have h₂ := ih r₂ p₁.1 p₂ hp₂
      simpa using le_trans h₂ h₁
    | star r₁ =>
      simp only [mtch, List.mem_append, List.mem_flatMap, List.mem_filter,
        List.mem_map, List.mem_singleton] at h
      rcases h with ⟨p₁, ⟨hp₁, hlt⟩, p₂, hp₂, hg⟩ | h
      · subst hg
        have hlt₁ := of_decide_eq_true hlt
        have h₂ := ih (.star r₁) p₁.1 p₂ hp₂
        simpa using le_trans h₂ (le_of_lt hlt₁)
      · subst h
        exact le_refl _
    | group n r₁ =>
      simp only [mtch, List.mem_map] at h
      obtain ⟨p₁, hp₁, hg⟩ := h
      subst hg
      simpa using ih r₁ s p₁ hp₁

theorem mtch_full_length_nullable :
    ∀ (f : Nat) (r : Regex) (s : List Char) (p : List Char × List (Nat × List Char)),
      p ∈ mtch f r s → p.1.length = s.length → nullable r = true := by
  intro f
  induction f with
  | zero => intro r s p h _; simp [mtch] at h
  | succ f ih =>
    intro r s p h hl
    cases r with
    | eps => rfl
    | char c =>
      cases s with
      | nil => simp [mtch] at h
      | cons x xs =>
        by_cases hx : x = c
        · simp only [mtch, if_pos hx, List.mem_singleton] at h
          subst h
          simp at hl
        · simp [mtch, hx] at h
    | any =>
      cases s with
      | nil => simp [mtch] at h
      | cons x xs =>
        simp only [mtch, List.mem_singleton] at h
        subst h
        simp at hl
    | alt r₁ r₂ =>
      simp only [mtch, List.mem_append] at h
      simp only [nullable, Bool.or_eq_true]
      rcases h with h | h
      · exact Or.inl (ih r₁ s p h hl)
      · exact Or.inr (ih r₂ s p h hl)
    | cat r₁ r₂ =>
      simp only [mtch, List.mem_flatMap, List.mem_map] at h
      obtain ⟨p₁, hp₁, p₂, hp₂, hg⟩ := h
      subst hg
      have hl₂ : p₂.1.length = s.length := hl
      have l₁ := mtch_length_le f r₁ s p₁ hp₁
      have l₂ := mtch_length_le f r₂ p₁.1 p₂ hp₂
      have e₁ : p₁.1.length = s.length := by omega
      have e₂ : p₂.1.length = p₁.1.length := by omega
      simp only [nullable, Bool.and_eq_true]
      exact ⟨ih r₁ s p₁ hp₁ e₁, ih r₂ p₁.1 p₂ hp₂ e₂⟩
    | star r₁ => rfl
    | group n r₁ =>
      simp only [mtch, List.mem_map] at h
      obtain ⟨p₁, hp₁, hg⟩ := h
      subst hg
      simp only [nullable]
      exact ih r₁ s p₁ hp₁ hl

theorem findallAux_whole_ne_nil (r : Regex) (hn : nullable r = false) :
    ∀ (f : Nat) (s : List Char) (m : MatchRes), m ∈ findallAux r f s →
      m.whole ≠ [] := by
  intro f
  induction f with
  | zero => intro s m h; simp [findallAux] at h
  | succ f ih =>
    intro s m h
    cases hm : mtch (mtchFuel r s) r s with
    | nil =>
      simp only [findallAux, hm] at h
      cases s with
      | nil => simp at h
      | cons x s₁ => exact ih s₁ m h
    | cons p ps =>
      have hpm : p ∈ mtch (mtchFuel r s) r s := hm ▸ List.mem_cons_self p ps
      have hlen := mtch_length_le (mtchFuel r s) r s p hpm
      have hne : (toMatchRes r s p.1 p.2).whole ≠ [] := by
        intro hw
        simp only [toMatchRes] at hw
        have hfull : p.1.length = s.length := by
          rcases List.take_eq_nil_iff.mp hw with hz | hz
          · omega
          · subst hz
            have hz₀ : p.1.length ≤ 0 := by simpa using hlen
            simpa using Nat.le_zero.mp hz₀
        have := mtch_full_length_nullable (mtchFuel r s) r s p hpm hfull
        rw [hn] at this
        exact Bool.noConfusion this
      simp only [findallAux, hm] at h
      cases hwc : (toMatchRes r s p.1 p.2).whole with
      | nil => exact absurd hwc hne
      | cons c cs =>
        simp only [hwc, List.isEmpty_cons, if_false, Bool.false_eq_true,
          ite_false] at h
        rcases List.mem_cons.mp h with h | h
        · subst h
          rw [hwc]
          simp
        · exact ih p.1 m h

/-- C5 (amended): for a registered rule with no capturing groups that cannot
match the empty string, extraction candidates are never the empty string; per
the counterexample, the property as stated fails for a rule (such as `a*`)
that does admit an empty match. -/
theorem extraction_candidates_nonempty (r : Regex) (data : String)
    (h0 : numGroups r = 0) (hn : nullable r = false) :
    "" ∉ matchCandidates r data := by
  intro hmem
  unfold matchCandidates pyFindall at hmem
  rw [List.map_map] at hmem
  obtain ⟨m, hm, he⟩ := List.mem_map.mp hmem
  rw [findallMatches] at hm
  have hwne := findallAux_whole_ne_nil r hn (data.data.length + 1) data.data m hm
  simp only [Function.comp, h0, if_true, eq_self_iff_true, ite_true] at he
  apply hwne
  exact congrArg String.data he

theorem extraction_candidates_nonempty_witness :
    "" ∉ matchCandidates (Regex.cat (.char 'a') (.cat (.char 'b') .eps)) "zabab" :=
  extraction_candidates_nonempty (Regex.cat (.char 'a') (.cat (.char 'b') .eps))
    "zabab" rfl rfl

/-- C5 counterexample: the pattern `a*` is syntactically valid and loads into
the registry, yet on the text unit `b` extraction yields empty-string
candidates, and with an empty whitelist the empty candidates are emitted as
matches — candidates are not always non-empty strings. -/
theorem extraction_empty_candidate_counterexample :
    (load_patterns [⟨"A", [("pattern", "a*")]⟩] []).toOption.getD [] =
      [("A", Regex.cat (.star (.char 'a')) .eps)] ∧
    "" ∈ matchCandidates (Regex.cat (.star (.char 'a')) .eps) "b" ∧
    (parse_page wlNone false "doc.txt" "b" 1
      [("A", Regex.cat (.star (.char 'a')) .eps)] []).1 =
      [.mtc "doc.txt" 1 "A" "", .mtc "doc.txt" 1 "A" ""] := by
  refine ⟨rfl, ?_, rfl⟩
  have hc : matchCandidates (Regex.cat (.star (.char 'a')) .eps) "b" = ["", ""] := rfl
  rw [hc]
  simp
